/-
Verification of the iam-compact-t31-scenario-metadata repository.

This file gives a shallow embedding of the repository's Python code:

* `criteria_eval.py` : the evaluation shim (`criterion_eval_return` and its
  inner `new_format_value_series` hook) and the per-kind evaluator functions
  `get_change_criterion_values`, `get_share_criterion_values`,
  `get_cumulative_criterion_values`.
* `criteria_def.py` / `criteria.py` : the criterion factory
  `make_cumulative_criterion` (both module variants).
* `process_vars.py` : `add_missing_aggregates`, in both a pure form and a
  heap-instrumented form (to reason about mutation of the input object).
* `notebooks/add_metadata_notebook.py` : the concatenation step `all_values`
  and its two assertions.

Pandas series are modelled as lists of rows together with flags recording which
index levels are present; machine floats are modelled as rationals; Python
exceptions are modelled with `Except` / an explicit `Outcome` type.
-/
import Mathlib

/-- Model of a Python value that can be passed for the `keep_regions`, `unit`
and `keep_name` parameters of the shim: a boolean, a string, or some other
value (such as `None`) that compares unequal to both booleans and is not a
string. -/
inductive PyVal where
  | pybool (b : Bool)
  | pystr (s : String)
  | pynone
deriving DecidableEq

/-- Python `==` comparison of a `PyVal` against a Python boolean.  Strings and
`None` compare unequal to `True` and `False`. -/
def pyEqBool (v : PyVal) (b : Bool) : Bool :=
  match v with
  | .pybool c => c == b
  | .pystr _ => false
  | .pynone => false

/-- Kinds of Python exception raised by the code paths modelled here. -/
inductive PyErr where
  | typeError
  | valueError
  | keyError
deriving DecidableEq

/-- One row of a pandas Series as returned by the criterion library: the
index entries for the model, scenario, region and unit levels, and the numeric
value. -/
structure SRow where
  model : String
  scenario : String
  region : String
  unit : String
  value : Rat
deriving DecidableEq

/-- Model of the pandas Series handled by `format_value_series`: the rows, two
flags recording whether the `region` and `unit` index levels are present, and
the optional `name` attribute. -/
structure PSeries where
  hasRegion : Bool
  hasUnit : Bool
  name : Option String
  rows : List SRow
deriving DecidableEq

/-- Model of `series.droplevel('region')`: removes the region index level;
pandas raises if the level is absent. -/
def droplevelRegion (s : PSeries) : Except PyErr PSeries :=
  if s.hasRegion then .ok { s with hasRegion := false } else .error .keyError

/-- Model of `series.droplevel('unit')`: removes the unit index level; pandas
raises if the level is absent. -/
def droplevelUnit (s : PSeries) : Except PyErr PSeries :=
  if s.hasUnit then .ok { s with hasUnit := false } else .error .keyError

/-- Model of the `reset_index('unit') ; frame['unit'] = u ; set_index` dance in
`new_format_value_series` (criteria_eval.py lines 153-157): every row's unit
entry is overwritten with `u`, the unit level stays present.  pandas raises if
the level is absent (from `reset_index('unit')`). -/
def setUnitLevel (u : String) (s : PSeries) : Except PyErr PSeries :=
  if s.hasUnit then
    .ok { s with rows := s.rows.map (fun r => { r with unit := u }) }
  else .error .keyError

/-- Embedding of the inner hook `new_format_value_series` defined inside
`criterion_eval_return` (criteria_eval.py lines 138-170), faithful to the
source's branch structure:

* `keep_regions == False` drops the region level, otherwise
  `keep_regions != True` raises ValueError;
* `unit == False` drops the unit level, a string `unit` overwrites every row's
  unit entry, otherwise `unit != True` raises ValueError;
* `keep_name != False` sets the name to `None`, otherwise
  `keep_name == True` would restore the original name (dead branch), otherwise
  it raises ValueError.  This final block reproduces the source verbatim,
  including its inverted branch conditions. -/
def new_format_value_series (keep_regions unit keep_name : PyVal)
    (series : PSeries) : Except PyErr PSeries :=
  let orig_name := series.name
  let step1 : Except PyErr PSeries :=
    if pyEqBool keep_regions false then droplevelRegion series
    else if !(pyEqBool keep_regions true) then .error .valueError
    else .ok series
  match step1 with
  | .error e => .error e
  | .ok s1 =>
    let step2 : Except PyErr PSeries :=
      if pyEqBool unit false then droplevelUnit s1
      else
        match unit with
        | .pystr u => setUnitLevel u s1
        | _ => if !(pyEqBool unit true) then .error .valueError else .ok s1
    match step2 with
    | .error e => .error e
    | .ok s2 =>
      if !(pyEqBool keep_name false) then .ok { s2 with name := none }
      else if pyEqBool keep_name true then .ok { s2 with name := orig_name }
      else .error .valueError

example :
    new_format_value_series (.pybool true) (.pystr ("%")) (.pybool true)
      { hasRegion := true, hasUnit := true, name := some ("x"),
        rows := [{ model := ("m"), scenario := ("s"), region := ("r"),
                   unit := ("EJ"), value := (1 : Rat) / 2 }] }
    = .ok
      { hasRegion := true, hasUnit := true, name := none,
        rows := [{ model := ("m"), scenario := ("s"), region := ("r"),
                   unit := ("%"), value := (1 : Rat) / 2 }] } := by
  rfl

/-- The type of the process-global formatting hook
`pathways_ensemble_analysis.criteria.base.format_value_series`. -/
abbrev Hook := PSeries → Except PyErr PSeries

/-- The process-global mutable state relevant to the shim: the currently
installed `format_value_series` hook in the
`pathways_ensemble_analysis.criteria.base` module. -/
structure GlobalState where
  format_value_series : Hook

/-- Modelled from the spec and the repository docstring: the library's
standard `format_value_series` "simply drops the `region` and `unit` index
levels from the returned Series and sets its `name` attribute to `None`"
(criteria_eval.py lines 104-108).  Used as a concrete initial hook. -/
def library_format_value_series : Hook := fun series =>
  match droplevelRegion series with
  | .error e => .error e
  | .ok s1 =>
    match droplevelUnit s1 with
    | .error e => .error e
    | .ok s2 => .ok { s2 with name := none }

/-- Outcome of running a Python statement block: normal completion with a
value, or an exception propagating out. -/
inductive Outcome (α : Type) where
  | normal (a : α)
  | raised (e : PyErr)

/-- Embedding of the context manager `criterion_eval_return`
(criteria_eval.py lines 92-176).  A body is any computation on the global
state that either completes normally or raises.  The manager saves the
installed hook, installs `new_format_value_series` with the given
configuration, runs the body, and restores the saved hook unconditionally
(the `try`/`finally` block at lines 173-176). -/
def criterion_eval_return {α : Type} (keep_regions unit keep_name : PyVal)
    (body : GlobalState → Outcome α × GlobalState) (g : GlobalState) :
    Outcome α × GlobalState :=
  let original_format_value_series := g.format_value_series
  let installed : GlobalState :=
    { format_value_series := new_format_value_series keep_regions unit keep_name }
  let step := body installed
  (step.1, { format_value_series := original_format_value_series })

/-- Modelled from the spec: the third-party `Criterion.get_values` methods of
`pathways_ensemble_analysis.criteria.base` (not part of this repository)
compute a raw ratio/aggregate series carrying region and unit index levels and
pass it through the process-global `format_value_series` hook before returning
(criteria_eval.py lines 102-108 describe this contract).  The raw series is a
parameter, since its computation lives in the external library. -/
def criterion_get_values (g : GlobalState) (raw : PSeries) :
    Outcome PSeries × GlobalState :=
  match g.format_value_series raw with
  | .ok v => (.normal v, g)
  | .error e => (.raised e, g)

/-- Embedding of the module-level global `keep_name` (criteria_eval.py line
44). -/
def keep_name : PyVal := .pybool true

/-- Multiplication of every value of a series by a scalar, the model of
`values * 100.0` (criteria_eval.py lines 59 and 74). -/
def seriesMulScalar (c : Rat) (s : PSeries) : PSeries :=
  { s with rows := s.rows.map (fun r => { r with value := r.value * c }) }

/-- Embedding of `get_change_criterion_values` (criteria_eval.py lines
47-59): evaluates the criterion under the shim configured with
`keep_regions=True, unit='%', keep_name=keep_name` and multiplies the result
by 100.  The raw series stands for the library's raw ratio output. -/
def get_change_criterion_values (raw : PSeries) (g : GlobalState) :
    Outcome PSeries × GlobalState :=
  let step := criterion_eval_return (.pybool true) (.pystr ("%")) keep_name
    (fun g1 => criterion_get_values g1 raw) g
  match step.1 with
  | .normal v => (.normal (seriesMulScalar 100 v), step.2)
  | .raised e => (.raised e, step.2)

/-- Embedding of `get_share_criterion_values` (criteria_eval.py lines 62-74),
whose body is identical to `get_change_criterion_values`. -/
def get_share_criterion_values (raw : PSeries) (g : GlobalState) :
    Outcome PSeries × GlobalState :=
  let step := criterion_eval_return (.pybool true) (.pystr ("%")) keep_name
    (fun g1 => criterion_get_values g1 raw) g
  match step.1 with
  | .normal v => (.normal (seriesMulScalar 100 v), step.2)
  | .raised e => (.raised e, step.2)

/-- Embedding of `get_cumulative_criterion_values` (criteria_eval.py lines
77-89): evaluates under the shim configured with `keep_regions=True,
unit=True, keep_name=keep_name` and returns the values unscaled. -/
def get_cumulative_criterion_values (raw : PSeries) (g : GlobalState) :
    Outcome PSeries × GlobalState :=
  criterion_eval_return (.pybool true) (.pybool true) keep_name
    (fun g1 => criterion_get_values g1 raw) g

/-- Model of `pathways_ensemble_analysis.AggregateCriterion` as constructed by
the repository: the constructor arguments that the factory functions pass,
plus the `_cumulative_unit` attribute set afterwards in `criteria_def.py`.
The Python `variable` parameter is rendered as `var_name` (`variable` is a
Lean keyword); `region` is rendered as a single string. -/
structure AggregateCriterion where
  criterion_name : String
  years : List Int
  var_name : String
  aggregation_function : List Rat → Rat
  unit : Option String
  region : String
  cumulative_unit : Option String

/-- Python `list(range(a, b))` over integers: the ascending list of integers
from `a` (inclusive) to `b` (exclusive), empty when `b ≤ a`. -/
def pyRange (a b : Int) : List Int :=
  (List.range (b - a).toNat).map (fun (i : Nat) => a + (i : Int))

/-- Embedding of `make_cumulative_criterion` from `criteria_def.py` (lines
120-165): the year range is `list(range(start_year, end_year + 1))` (line
158), the aggregation function is `pd.Series.sum`, and `_cumulative_unit` is
set on the returned object (line 164). -/
def make_cumulative_criterion (start_year end_year : Int)
    (v n : String) (unit cumulative_unit : Option String) (region : String) :
    AggregateCriterion :=
  { criterion_name := n,
    years := pyRange start_year (end_year + 1),
    var_name := v,
    aggregation_function := fun l => l.sum,
    unit := unit,
    region := region,
    cumulative_unit := cumulative_unit }

/-- Embedding of `make_cumulative_criterion` from `criteria.py` (lines
114-142): same year range `list(range(start_year, end_year + 1))` (line 137),
no unit or cumulative-unit arguments. -/
def make_cumulative_criterion_basic (start_year end_year : Int)
    (v n : String) (region : String) : AggregateCriterion :=
  { criterion_name := n,
    years := pyRange start_year (end_year + 1),
    var_name := v,
    aggregation_function := fun l => l.sum,
    unit := none,
    region := region,
    cumulative_unit := none }

/-- The inclusive year range the spec describes for Cumulative criteria:
the list of consecutive integers from `start_year` through `end_year`,
both included. -/
def inclusiveRangeSpec (start_year end_year : Int) : List Int :=
  (List.range (end_year - start_year + 1).toNat).map
    (fun (i : Nat) => start_year + (i : Int))

/-- One row of the long-format scenario dataset held by a
`pyam.IamDataFrame`: index entries for model, scenario, region, variable and
unit, the year, and the numeric value. -/
structure DRow where
  model : String
  scenario : String
  region : String
  var_name : String
  unit : String
  year : Int
  value : Rat
deriving DecidableEq

/-- The (model, scenario) pairs appearing in a dataset; the model of the
`.index` property of a `pyam.IamDataFrame` (membership is all the code
uses). -/
def msPairs (df : List DRow) : List (String × String) :=
  df.map (fun r => (r.model, r.scenario))

/-- Whether a row's (model, scenario) pair belongs to an index, the model of
`pyam.IamDataFrame.filter(index=...)` membership. -/
def rowInIndex (idx : List (String × String)) (r : DRow) : Bool :=
  idx.contains (r.model, r.scenario)

/-- Test used by `pyam.IamDataFrame.aggregate` to decide whether a row is a
component row: with an explicit component list, membership in the list; with
`None`, the default hierarchy inference selecting direct children of the
aggregate variable (one level below in the `|`-separated hierarchy). -/
def isComponentVar (agg_var : String) (component_vars : Option (List String))
    (v : String) : Bool :=
  match component_vars with
  | some l => l.contains v
  | none =>
      ((agg_var ++ ("|")).isPrefixOf v)
        && !((v.drop (agg_var.length + 1)).contains ('|'))

/-- The grouping key used by `pyam.IamDataFrame.aggregate`: all index
dimensions except the variable. -/
def aggKey (r : DRow) : String × String × String × String × Int :=
  (r.model, r.scenario, r.region, r.unit, r.year)

/-- Model of `pyam.IamDataFrame.aggregate(variable=agg_var, components=...)`:
for every distinct (model, scenario, region, unit, year) group among the
component rows, one new row named `agg_var` holding the sum of the group's
component values.  Groups with no component rows produce no row (missing data
propagates by absence). -/
def aggregateRows (agg_var : String) (component_vars : Option (List String))
    (df : List DRow) : List DRow :=
  let comp := df.filter (fun r => isComponentVar agg_var component_vars r.var_name)
  let keys := (comp.map aggKey).dedup
  keys.map (fun k =>
    { model := k.1, scenario := k.2.1, region := k.2.2.1,
      var_name := agg_var, unit := k.2.2.2.1, year := k.2.2.2.2,
      value := ((comp.filter (fun r => aggKey r = k)).map DRow.value).sum })

/-- Embedding of `add_missing_aggregates` (process_vars.py lines 30-84):
compute the (model, scenario) index of the rows reporting the aggregate
variable, split the dataset into the partition whose pairs are in that index
and its complement, append the aggregated component sums to the missing
partition, and concatenate the two partitions. -/
def add_missing_aggregates (iamdf : List DRow) (agg_var : String)
    (component_vars : Option (List String)) : List DRow :=
  let has_agg_var_index :=
    msPairs (iamdf.filter (fun r => r.var_name == agg_var))
  let iamdf_agg_present := iamdf.filter (rowInIndex has_agg_var_index)
  let iamdf_agg_missing :=
    iamdf.filter (fun r => !(rowInIndex has_agg_var_index r))
  let appended :=
    iamdf_agg_missing ++ aggregateRows agg_var component_vars iamdf_agg_missing
  iamdf_agg_present ++ appended

/-- A heap of `IamDataFrame` objects: the contents of each allocated object
and the next fresh identifier.  Used to express which objects a call
mutates. -/
structure Store where
  heap : Nat → List DRow
  next : Nat

/-- Contents of an object on the heap. -/
def readObj (st : Store) (i : Nat) : List DRow := st.heap i

/-- In-place update of an object's contents. -/
def writeObj (st : Store) (i : Nat) (d : List DRow) : Store :=
  { st with heap := fun j => if j = i then d else st.heap j }

/-- Allocation of a fresh object holding `d`. -/
def allocObj (st : Store) (d : List DRow) : Store × Nat :=
  ({ heap := fun j => if j = st.next then d else st.heap j,
     next := st.next + 1 }, st.next)

/-- Heap model of `iamdf.filter(variable=v)`: allocates and returns a new
object, leaving the receiver untouched. -/
def filterVariableOp (st : Store) (src : Nat) (v : String) : Store × Nat :=
  allocObj st ((readObj st src).filter (fun r => r.var_name == v))

/-- Heap model of `iamdf.filter(index=idx)` / `filter(index=idx, keep=False)`:
allocates and returns a new object, leaving the receiver untouched. -/
def filterIndexOp (st : Store) (src : Nat) (idx : List (String × String))
    (keep : Bool) : Store × Nat :=
  allocObj st ((readObj st src).filter
    (fun r => rowInIndex idx r == keep))

/-- Heap model of `iamdf.aggregate(variable=agg_var, components=...,
append=True)`: mutates the receiver in place, appending the aggregated
rows. -/
def aggregateAppendOp (st : Store) (tgt : Nat) (agg_var : String)
    (component_vars : Option (List String)) : Store :=
  writeObj st tgt
    (readObj st tgt ++ aggregateRows agg_var component_vars (readObj st tgt))

/-- Heap model of `pyam.concat([a, b])`: allocates and returns a new object,
leaving both arguments untouched. -/
def concatOp (st : Store) (a b : Nat) : Store × Nat :=
  allocObj st (readObj st a ++ readObj st b)

/-- Heap-instrumented embedding of `add_missing_aggregates`
(process_vars.py lines 30-84), with each pyam call mapped to the heap
operation it performs; returns the final heap and the identifier of the
returned object. -/
def add_missing_aggregates_heap (st : Store) (iamdf : Nat)
    (agg_var : String) (component_vars : Option (List String)) :
    Store × Nat :=
  let s1 := filterVariableOp st iamdf agg_var
  let has_agg_var_index := msPairs (readObj s1.1 s1.2)
  let s2 := filterIndexOp s1.1 iamdf has_agg_var_index true
  let s3 := filterIndexOp s2.1 iamdf has_agg_var_index false
  let st4 := aggregateAppendOp s3.1 s3.2 agg_var component_vars
  concatOp st4 s2.2 s3.2

/-- Index tuple of one entry of an evaluated criterion result series in the
notebook: (model, scenario, region, criterion name). -/
abbrev IdxKey := String × String × String × String

/-- An evaluated criterion result series in the notebook: index tuples paired
with numeric values. -/
abbrev ValueSeries := List (IdxKey × Rat)

/-- Embedding of the notebook's `all_values = pd.concat(...)` step
(add_metadata_notebook.py lines 161-167): plain concatenation of the
evaluated series. -/
def all_values (series_list : List ValueSeries) : ValueSeries :=
  series_list.flatten

/-- Embedding of the notebook's `orig_length` (add_metadata_notebook.py lines
176-180): the sum of the lengths of the individual series. -/
def orig_length (series_list : List ValueSeries) : Nat :=
  (series_list.map List.length).sum

/-- The index of a result series, as a list of index tuples. -/
def seriesIndex (s : ValueSeries) : List IdxKey :=
  s.map Prod.fst

/-- Embedding of `all_values.index.is_unique`, the second notebook assertion
(add_metadata_notebook.py line 182). -/
def indexIsUnique (s : ValueSeries) : Prop :=
  (seriesIndex s).Nodup

/-- The series produced by the Change/Share evaluators on a raw library
series: unit entries overwritten with the percent label, name cleared, values
multiplied by 100. -/
def pctFormattedOutput (raw : PSeries) : PSeries :=
  seriesMulScalar 100
    { raw with name := none,
               rows := raw.rows.map (fun r => { r with unit := ("%") }) }

/-- C1: for every evaluation via `get_change_criterion_values` or
`get_share_criterion_values` of a raw library series that carries region and
unit index levels, the returned series is `.normal` with numeric values equal
to 100 times the raw ratio values, the region index level present, and the
unit index level present with every entry equal to the percent string. -/
theorem pct_values_region_unit (raw : PSeries) (g : GlobalState)
    (hr : raw.hasRegion = true) (hu : raw.hasUnit = true) :
    (get_change_criterion_values raw g).1 = .normal (pctFormattedOutput raw) ∧
    (get_share_criterion_values raw g).1 = .normal (pctFormattedOutput raw) ∧
    (pctFormattedOutput raw).hasRegion = true ∧
    (pctFormattedOutput raw).hasUnit = true ∧
    (∀ r ∈ (pctFormattedOutput raw).rows, r.unit = ("%")) ∧
    (pctFormattedOutput raw).rows.map SRow.value
        = raw.rows.map (fun r => r.value * 100) := by
  refine ⟨?_, ?_, ?_, ?_, ?_, ?_⟩
  · simp [get_change_criterion_values, criterion_eval_return,
      criterion_get_values, new_format_value_series, keep_name, pyEqBool,
      setUnitLevel, hu, pctFormattedOutput, seriesMulScalar]
  · simp [get_share_criterion_values, criterion_eval_return,
      criterion_get_values, new_format_value_series, keep_name, pyEqBool,
      setUnitLevel, hu, pctFormattedOutput, seriesMulScalar]
  · simp [pctFormattedOutput, seriesMulScalar, hr]
  · simp [pctFormattedOutput, seriesMulScalar, hu]
  · simp only [pctFormattedOutput, seriesMulScalar, List.map_map, List.mem_map,
      Function.comp]
    rintro r ⟨r0, hr0, rfl⟩
    rfl
  · simp [pctFormattedOutput, seriesMulScalar, List.map_map, Function.comp]

/-- A concrete raw series with region and unit levels present, used to
witness the evaluator theorems. -/
def rawSeriesW : PSeries :=
  { hasRegion := true, hasUnit := true, name := some ("ratio"),
    rows := [{ model := ("m1"), scenario := ("s1"), region := ("World"),
               unit := ("EJ"), value := (1 : Rat) / 4 }] }

/-- A concrete global state whose installed hook is the library default. -/
def stateW : GlobalState := { format_value_series := library_format_value_series }

/-- Witness for C1 at a concrete raw series and global state. -/
theorem pct_values_region_unit_witness :
    rawSeriesW.hasRegion = true ∧ rawSeriesW.hasUnit = true ∧
    (get_change_criterion_values rawSeriesW stateW).1
        = .normal (pctFormattedOutput rawSeriesW) ∧
    (get_share_criterion_values rawSeriesW stateW).1
        = .normal (pctFormattedOutput rawSeriesW) :=
  ⟨rfl, rfl, (pct_values_region_unit rawSeriesW stateW rfl rfl).1,
    (pct_values_region_unit rawSeriesW stateW rfl rfl).2.1⟩

/-- A concrete series whose name attribute is set, exhibiting the hook's
keep-name behavior. -/
def namedSeries : PSeries :=
  { hasRegion := true, hasUnit := true, name := some ("orig name"),
    rows := [{ model := ("m1"), scenario := ("s1"), region := ("World"),
               unit := ("EJ"), value := 7 }] }

/-- C2 (code bug): evaluating the hook at `keep_regions=True, unit=True` shows
the inverted keep-name branches of criteria_eval.py lines 162-169.  With
`keep_name=True` the hook returns normally but clears the name to `None`
instead of preserving it; with `keep_name=False` the hook raises ValueError
instead of returning normally with the name cleared. -/
theorem keep_name_branches_inverted :
    new_format_value_series (.pybool true) (.pybool true) (.pybool true)
        namedSeries = .ok { namedSeries with name := none } ∧
    new_format_value_series (.pybool true) (.pybool true) (.pybool false)
        namedSeries = .error .valueError :=
  ⟨rfl, rfl⟩

/-- A concrete series without a name attribute, used for the configuration
validation bug. -/
def plainSeries : PSeries :=
  { hasRegion := true, hasUnit := true, name := none,
    rows := [{ model := ("m2"), scenario := ("s2"), region := ("World"),
               unit := ("EJ"), value := 3 }] }

/-- C3 (code bug): the hook does not raise ValueError exactly on invalid
configurations.  The fully valid configuration `keep_regions=True, unit=True,
keep_name=False` raises ValueError, while the invalid configuration with a
non-boolean `keep_name` (here `None`) returns normally. -/
theorem config_validation_inverted :
    new_format_value_series (.pybool true) (.pybool true) (.pybool false)
        plainSeries = .error .valueError ∧
    new_format_value_series (.pybool true) (.pybool true) .pynone
        plainSeries = .ok { plainSeries with name := none } :=
  ⟨rfl, rfl⟩

/-- C4: the unit index level follows the tri-state policy for every series
carrying region and unit levels, every boolean `keep_regions`, and every
`keep_name` value on which the hook does not raise (any value other than
Python `False`, per the branch at line 162): `unit=False` drops the unit
level; `unit=True` leaves the series' rows (hence the unit entries) unchanged;
a string `unit` keeps the level and overwrites every row's unit entry. -/
theorem unit_level_tristate (kr : Bool) (kn : PyVal) (s : PSeries) (u : String)
    (hkn : pyEqBool kn false = false)
    (hr : s.hasRegion = true) (hu : s.hasUnit = true) :
    (new_format_value_series (.pybool kr) (.pybool false) kn s).map
        PSeries.hasUnit = .ok false ∧
    (new_format_value_series (.pybool kr) (.pybool true) kn s).map
        PSeries.rows = .ok s.rows ∧
    (new_format_value_series (.pybool kr) (.pybool true) kn s).map
        PSeries.hasUnit = .ok true ∧
    (new_format_value_series (.pybool kr) (.pystr u) kn s).map
        PSeries.hasUnit = .ok true ∧
    (new_format_value_series (.pybool kr) (.pystr u) kn s).map
        (fun o => decide (∀ r ∈ o.rows, r.unit = u)) = .ok true := by
  cases kn with
  | pybool b =>
    have hb : b = true := by
      cases b
      · simp [pyEqBool] at hkn
      · rfl
    subst hb
    cases kr <;>
      refine ⟨?_, ?_, ?_, ?_, ?_⟩ <;>
        simp [new_format_value_series, pyEqBool, droplevelRegion,
          droplevelUnit, setUnitLevel, hr, hu, Except.map, List.map_map,
          Function.comp]
  | pystr t =>
    cases kr <;>
      refine ⟨?_, ?_, ?_, ?_, ?_⟩ <;>
        simp [new_format_value_series, pyEqBool, droplevelRegion,
          droplevelUnit, setUnitLevel, hr, hu, Except.map, List.map_map,
          Function.comp]
  | pynone =>
    cases kr <;>
      refine ⟨?_, ?_, ?_, ?_, ?_⟩ <;>
        simp [new_format_value_series, pyEqBool, droplevelRegion,
          droplevelUnit, setUnitLevel, hr, hu, Except.map, List.map_map,
          Function.comp]

/-- Witness for C4 at a concrete series and configuration. -/
theorem unit_level_tristate_witness :
    pyEqBool (.pybool true) false = false ∧
    namedSeries.hasRegion = true ∧ namedSeries.hasUnit = true ∧
    (new_format_value_series (.pybool true) (.pybool false) (.pybool true)
        namedSeries).map PSeries.hasUnit = .ok false ∧
    (new_format_value_series (.pybool true) (.pystr ("Mt")) (.pybool true)
        namedSeries).map
        (fun o => decide (∀ r ∈ o.rows, r.unit = ("Mt"))) = .ok true :=
  ⟨rfl, rfl, rfl,
    (unit_level_tristate true (.pybool true) namedSeries ("Mt") rfl rfl rfl).1,
    (unit_level_tristate true (.pybool true) namedSeries ("Mt") rfl rfl rfl).2.2.2.2⟩

/-- C5: the context manager `criterion_eval_return` installs the override only
for the duration of the body and restores the previously installed hook on
every exit path.  The body is arbitrary and may finish normally or raise; in
both cases the final global hook equals the hook installed before entry, and
the body itself runs against exactly the overridden hook. -/
theorem shim_scoped_restoration {α : Type} (kr u kn : PyVal)
    (body : GlobalState → Outcome α × GlobalState) (g : GlobalState) :
    (criterion_eval_return kr u kn body g).2.format_value_series
        = g.format_value_series ∧
    (criterion_eval_return kr u kn body g).1
        = (body { format_value_series := new_format_value_series kr u kn }).1 :=
  ⟨rfl, rfl⟩

/-- Membership in a Python integer range: `y` is in `range(a, b)` exactly when
`a ≤ y < b`. -/
theorem mem_pyRange (a b y : Int) : y ∈ pyRange a b ↔ a ≤ y ∧ y < b := by
  simp only [pyRange, List.mem_map, List.mem_range]
  constructor
  · rintro ⟨i, hi, rfl⟩
    omega
  · intro h2
    exact ⟨(y - a).toNat, by omega, by omega⟩

/-- C6: for `start_year ≤ end_year`, both factory variants of
`make_cumulative_criterion` construct the inclusive year range: the `years`
list equals the consecutive list from `start_year` through `end_year`, the end
year is a member, and membership is exactly the inclusive interval. -/
theorem cumulative_year_range_inclusive (s e : Int) (h : s ≤ e)
    (v n : String) (u cu : Option String) (reg : String) :
    (make_cumulative_criterion s e v n u cu reg).years
        = inclusiveRangeSpec s e ∧
    (make_cumulative_criterion_basic s e v n reg).years
        = inclusiveRangeSpec s e ∧
    e ∈ (make_cumulative_criterion s e v n u cu reg).years ∧
    ∀ y : Int,
      y ∈ (make_cumulative_criterion s e v n u cu reg).years
        ↔ s ≤ y ∧ y ≤ e := by
  have hrange : pyRange s (e + 1) = inclusiveRangeSpec s e := by
    simp only [pyRange, inclusiveRangeSpec]
    have : e + 1 - s = e - s + 1 := by ring
    rw [this]
  refine ⟨hrange, hrange, ?_, ?_⟩
  · exact (mem_pyRange s (e + 1) e).mpr ⟨h, by omega⟩
  · intro y
    constructor
    · intro hy
      have := (mem_pyRange s (e + 1) y).mp hy
      omega
    · intro hy
      exact (mem_pyRange s (e + 1) y).mpr ⟨hy.1, by omega⟩

/-- Witness for C6 at concrete years 2020 through 2024. -/
theorem cumulative_year_range_inclusive_witness :
    ((2020 : Int) ≤ 2024) ∧
    (make_cumulative_criterion 2020 2024 ("Emissions") ("name") none none
        ("*")).years = inclusiveRangeSpec 2020 2024 ∧
    (2024 : Int) ∈ (make_cumulative_criterion 2020 2024 ("Emissions")
        ("name") none none ("*")).years :=
  ⟨by decide,
    (cumulative_year_range_inclusive 2020 2024 (by decide) ("Emissions")
      ("name") none none ("*")).1,
    (cumulative_year_range_inclusive 2020 2024 (by decide) ("Emissions")
      ("name") none none ("*")).2.2.1⟩

/-- Every row produced by the aggregation step carries the aggregate variable
name. -/
theorem var_name_of_mem_aggregateRows {a : String} {c : Option (List String)}
    {l : List DRow} {r : DRow} (h : r ∈ aggregateRows a c l) :
    r.var_name = a := by
  simp only [aggregateRows, List.mem_map] at h
  obtain ⟨k, hk, rfl⟩ := h
  rfl

/-- Every input row survives into the output of `add_missing_aggregates`: it
lands in the present partition or in the missing partition, both of which are
concatenated into the result. -/
theorem mem_add_of_mem (df : List DRow) (a : String)
    (c : Option (List String)) (r : DRow) (hr : r ∈ df) :
    r ∈ add_missing_aggregates df a c := by
  simp only [add_missing_aggregates, List.mem_append, List.mem_filter]
  by_cases hP :
      rowInIndex (msPairs (df.filter (fun r => r.var_name == a))) r = true
  · exact Or.inl ⟨hr, hP⟩
  · refine Or.inr (Or.inl ⟨hr, ?_⟩)
    simp only [Bool.not_eq_true] at hP
    simp [hP]

/-- C7: `add_missing_aggregates` preserves every input row (in particular the
rows of pairs already reporting the aggregate are copied unchanged and never
overwritten), keeps the total row count of variables other than the aggregate
equal to the input's, and only ever adds rows carrying the aggregate
variable. -/
theorem aggregate_filler_invariants (df : List DRow) (a : String)
    (c : Option (List String)) :
    (∀ r ∈ df, r ∈ add_missing_aggregates df a c) ∧
    ((add_missing_aggregates df a c).filter
        (fun r => !(r.var_name == a))).length
      = (df.filter (fun r => !(r.var_name == a))).length ∧
    (∀ r ∈ add_missing_aggregates df a c, r ∈ df ∨ r.var_name = a) := by
  refine ⟨fun r hr => mem_add_of_mem df a c r hr, ?_, ?_⟩
  · simp only [add_missing_aggregates]
    rw [List.filter_append, List.filter_append]
    have hagg :
        (aggregateRows a c (df.filter (fun r =>
            !(rowInIndex (msPairs (df.filter
                (fun r2 => r2.var_name == a))) r)))).filter
          (fun r => !(r.var_name == a)) = [] := by
      apply List.filter_eq_nil_iff.mpr
      intro x hx
      have hv := var_name_of_mem_aggregateRows hx
      simp [hv]
    rw [hagg, List.append_nil]
    have hperm := List.filter_append_perm
      (rowInIndex (msPairs (df.filter (fun r => r.var_name == a)))) df
    have hlen := (hperm.filter (fun r => !(r.var_name == a))).length_eq
    rw [List.filter_append] at hlen
    exact hlen
  · intro r hr
    simp only [add_missing_aggregates, List.mem_append, List.mem_filter] at hr
    rcases hr with ⟨h1, _⟩ | ⟨h1, _⟩ | h1
    · exact Or.inl h1
    · exact Or.inl h1
    · exact Or.inr (var_name_of_mem_aggregateRows h1)

/-- A concrete dataset with one component row and no aggregate row. -/
def dfW : List DRow :=
  [{ model := ("m1"), scenario := ("s1"), region := ("World"),
     var_name := ("Primary Energy|Hydro"), unit := ("EJ"), year := 2030,
     value := 5 }]

/-- Witness for C7 at a concrete dataset. -/
theorem aggregate_filler_invariants_witness :
    (dfW.head (by decide) ∈ dfW) ∧
    dfW.head (by decide)
        ∈ add_missing_aggregates dfW ("Primary Energy") none ∧
    ((add_missing_aggregates dfW ("Primary Energy") none).filter
        (fun r => !(r.var_name == ("Primary Energy")))).length
      = (dfW.filter (fun r => !(r.var_name == ("Primary Energy")))).length :=
  ⟨List.head_mem (by decide),
    (aggregate_filler_invariants dfW ("Primary Energy") none).1
      (dfW.head (by decide)) (List.head_mem (by decide)),
    (aggregate_filler_invariants dfW ("Primary Energy") none).2.1⟩

/-- Unfolding equation for `add_missing_aggregates`, used to expand a single
occurrence. -/
theorem add_missing_aggregates_eq (l : List DRow) (a : String)
    (c : Option (List String)) :
    add_missing_aggregates l a c
      = l.filter (rowInIndex (msPairs (l.filter (fun r => r.var_name == a))))
        ++ (l.filter (fun r =>
              !(rowInIndex (msPairs (l.filter
                  (fun r2 => r2.var_name == a))) r))
            ++ aggregateRows a c (l.filter (fun r =>
                !(rowInIndex (msPairs (l.filter
                    (fun r2 => r2.var_name == a))) r)))) := rfl

/-- If no row of a dataset is a component row, the aggregation step produces
nothing. -/
theorem aggregateRows_eq_nil_of_no_comp {a : String}
    {c : Option (List String)} {l : List DRow}
    (h : ∀ r ∈ l, isComponentVar a c r.var_name = false) :
    aggregateRows a c l = [] := by
  have hcomp : l.filter (fun r => isComponentVar a c r.var_name) = [] :=
    List.filter_eq_nil_iff.mpr (by intro x hx; simp [h x hx])
  simp [aggregateRows, hcomp]

/-- Bridge between the boolean membership test of `rowInIndex` and list
membership of the (model, scenario) pair. -/
theorem rowInIndex_iff {idx : List (String × String)} {r : DRow} :
    rowInIndex idx r = true ↔ (r.model, r.scenario) ∈ idx := by
  simp [rowInIndex]

/-- A row whose (model, scenario) pair is matched by some row of `l` carrying
the aggregate variable name is in the index of the aggregate-reporting
pairs. -/
theorem rowInIndex_msPairs_filter_var {l : List DRow} {a : String} {r : DRow}
    (x : DRow) (hx : x ∈ l) (hva : x.var_name = a)
    (hm : x.model = r.model) (hs : x.scenario = r.scenario) :
    rowInIndex (msPairs (l.filter (fun y => y.var_name == a))) r = true := by
  rw [rowInIndex_iff]
  simp only [msPairs, List.mem_map]
  refine ⟨x, List.mem_filter.mpr ⟨hx, by simp [hva]⟩, ?_⟩
  rw [hm, hs]

/-- A row in the aggregate-reporting index owes its membership to some row of
`l` with the aggregate variable name and the same (model, scenario) pair. -/
theorem exists_agg_reporter {l : List DRow} {a : String} {r : DRow}
    (h : rowInIndex (msPairs (l.filter (fun y => y.var_name == a))) r
        = true) :
    ∃ x ∈ l, x.var_name = a ∧ x.model = r.model ∧ x.scenario = r.scenario := by
  rw [rowInIndex_iff] at h
  simp only [msPairs, List.mem_map] at h
  obtain ⟨x, hx, hpair⟩ := h
  obtain ⟨hxl, hxa⟩ := List.mem_filter.mp hx
  refine ⟨x, hxl, by simpa using hxa, ?_, ?_⟩
  · exact congrArg Prod.fst hpair
  · exact congrArg Prod.snd hpair

/-- Every component row of a dataset gives rise to an aggregated row with the
aggregate variable name and the same (model, scenario) pair. -/
theorem exists_agg_row {a : String} {c : Option (List String)}
    {l : List DRow} {r : DRow} (hr : r ∈ l)
    (hc : isComponentVar a c r.var_name = true) :
    ∃ x ∈ aggregateRows a c l,
      x.var_name = a ∧ x.model = r.model ∧ x.scenario = r.scenario := by
  have hrc : r ∈ l.filter (fun y => isComponentVar a c y.var_name) :=
    List.mem_filter.mpr ⟨hr, hc⟩
  have hkey : aggKey r
      ∈ ((l.filter (fun y => isComponentVar a c y.var_name)).map
          aggKey).dedup :=
    List.mem_dedup.mpr (List.mem_map_of_mem aggKey hrc)
  exact ⟨_, List.mem_map_of_mem _ hkey, rfl, rfl, rfl⟩

/-- After one run of `add_missing_aggregates`, every row carrying a component
variable belongs to a (model, scenario) pair that now reports the aggregate
variable. -/
theorem second_missing_no_comp (df : List DRow) (a : String)
    (c : Option (List String)) (r : DRow)
    (hr : r ∈ add_missing_aggregates df a c)
    (hc : isComponentVar a c r.var_name = true) :
    rowInIndex (msPairs ((add_missing_aggregates df a c).filter
        (fun x => x.var_name == a))) r = true := by
  simp only [add_missing_aggregates, List.mem_append, List.mem_filter] at hr
  rcases hr with ⟨hdf, hP1⟩ | ⟨hdf, hP1n⟩ | hC
  · obtain ⟨x, hxdf, hxa, hxm, hxs⟩ := exists_agg_reporter hP1
    exact rowInIndex_msPairs_filter_var x (mem_add_of_mem df a c x hxdf)
      hxa hxm hxs
  · have hrB : r ∈ df.filter (fun y =>
        !(rowInIndex (msPairs (df.filter
            (fun r2 => r2.var_name == a))) y)) :=
      List.mem_filter.mpr ⟨hdf, hP1n⟩
    obtain ⟨x, hxC, hxa, hxm, hxs⟩ := exists_agg_row hrB hc
    have hxO : x ∈ add_missing_aggregates df a c := by
      simp only [add_missing_aggregates, List.mem_append]
      exact Or.inr (Or.inr hxC)
    exact rowInIndex_msPairs_filter_var x hxO hxa hxm hxs
  · have hva := var_name_of_mem_aggregateRows hC
    have hrO : r ∈ add_missing_aggregates df a c := by
      simp only [add_missing_aggregates, List.mem_append]
      exact Or.inr (Or.inr hC)
    exact rowInIndex_msPairs_filter_var r hrO hva rfl rfl

/-- C8: `add_missing_aggregates` is idempotent as a dataset transformation.
Applying it twice with the same aggregate variable and component list yields
the same dataset (the same rows, as a keyed table, i.e. up to permutation) as
applying it once: the second run finds no (model, scenario) pair still both
missing the aggregate and carrying components, so it aggregates nothing. -/
theorem aggregate_filler_idempotent (df : List DRow) (a : String)
    (c : Option (List String)) :
    (add_missing_aggregates (add_missing_aggregates df a c) a c).Perm
      (add_missing_aggregates df a c) := by
  have hnil : aggregateRows a c ((add_missing_aggregates df a c).filter
      (fun r => !(rowInIndex (msPairs ((add_missing_aggregates df a c).filter
          (fun r2 => r2.var_name == a))) r))) = [] := by
    apply aggregateRows_eq_nil_of_no_comp
    intro r hrm
    obtain ⟨hrO, hPn⟩ := List.mem_filter.mp hrm
    cases hcv : isComponentVar a c r.var_name
    · rfl
    · exfalso
      have htrue := second_missing_no_comp df a c r hrO hcv
      rw [htrue] at hPn
      simp at hPn
  rw [add_missing_aggregates_eq (add_missing_aggregates df a c) a c, hnil,
    List.append_nil]
  exact List.filter_append_perm _ _

/-- C10: `add_missing_aggregates` never mutates its input dataset.  In the
heap model, every filter and concat allocates a fresh object and the only
in-place operation (`aggregate(..., append=True)`) targets the freshly
allocated missing-partition copy, so for every valid input object identifier
the input object's rows after the call equal its rows before the call. -/
theorem aggregate_filler_no_input_mutation (st : Store) (iamdf : Nat)
    (a : String) (c : Option (List String)) (h : iamdf < st.next) :
    readObj (add_missing_aggregates_heap st iamdf a c).1 iamdf
      = readObj st iamdf := by
  have h0 : iamdf ≠ st.next := by omega
  have h1 : iamdf ≠ st.next + 1 := by omega
  have h2 : iamdf ≠ st.next + 2 := by omega
  have h3 : iamdf ≠ st.next + 3 := by omega
  simp [add_missing_aggregates_heap, filterVariableOp, filterIndexOp,
    aggregateAppendOp, concatOp, allocObj, readObj, writeObj, h0, h1, h2, h3]

/-- A concrete one-object store for the mutation witness. -/
def storeW : Store := { heap := fun _ => dfW, next := 1 }

/-- Witness for C10 at a concrete store and object. -/
theorem aggregate_filler_no_input_mutation_witness :
    (0 < storeW.next) ∧
    readObj (add_missing_aggregates_heap storeW 0 ("Primary Energy")
        none).1 0
      = readObj storeW 0 :=
  ⟨by decide,
    aggregate_filler_no_input_mutation storeW 0 ("Primary Energy") none
      (by decide)⟩

/-- C9: the notebook's concatenation checks.  The length assertion always
holds: the concatenated series' length equals the sum of the individual
lengths.  For series with internally unique and pairwise-disjoint index
tuples, the concatenated index is unique, so both assertions pass; and
whenever two series at different positions share an index tuple, the
uniqueness assertion fails. -/
theorem notebook_concat_assertions :
    (∀ L : List ValueSeries, (all_values L).length = orig_length L) ∧
    (∀ L : List ValueSeries,
      (∀ s ∈ L, indexIsUnique s) →
      List.Pairwise
        (fun s t => List.Disjoint (seriesIndex s) (seriesIndex t)) L →
      indexIsUnique (all_values L)) ∧
    (∀ (L1 L2 L3 : List ValueSeries) (s t : ValueSeries) (k : IdxKey),
      k ∈ seriesIndex s → k ∈ seriesIndex t →
      ¬ indexIsUnique (all_values (L1 ++ s :: (L2 ++ t :: L3)))) := by
  refine ⟨?_, ?_, ?_⟩
  · intro L
    simp [all_values, orig_length]
  · intro L h1 h2
    unfold indexIsUnique all_values seriesIndex
    rw [List.map_flatten, List.nodup_flatten]
    constructor
    · intro l hl
      obtain ⟨s, hs, rfl⟩ := List.mem_map.mp hl
      have := h1 s hs
      simpa [indexIsUnique, seriesIndex] using this
    · rw [List.pairwise_map]
      exact h2
  · intro L1 L2 L3 s t k hks hkt hnd
    unfold indexIsUnique all_values seriesIndex at hnd
    simp only [List.map_flatten, List.map_append, List.map_cons,
      List.flatten_append, List.flatten_cons] at hnd
    obtain ⟨-, hnd2, -⟩ := List.nodup_append.mp hnd
    obtain ⟨-, -, hdisj⟩ := List.nodup_append.mp hnd2
    have hks2 : k ∈ s.map Prod.fst := hks
    have hkt2 : k ∈ t.map Prod.fst := hkt
    exact hdisj hks2
      (List.mem_append_right _ (List.mem_append_left _ hkt2))

/-- A first concrete evaluated series for the concatenation witness. -/
def seriesW1 : ValueSeries :=
  [((("m1"), ("s1"), ("World"), ("crit1")), 10)]

/-- A second concrete evaluated series, disjoint from the first. -/
def seriesW2 : ValueSeries :=
  [((("m1"), ("s1"), ("World"), ("crit2")), 20)]

/-- Witness for C9: the disjoint pair passes the uniqueness check, while
concatenating a series with itself trips the assertion. -/
theorem notebook_concat_assertions_witness :
    (∀ s ∈ [seriesW1, seriesW2], indexIsUnique s) ∧
    indexIsUnique (all_values [seriesW1, seriesW2]) ∧
    ¬ indexIsUnique
        (all_values ([] ++ seriesW1 :: ([] ++ seriesW1 :: []))) :=
  have huniq : ∀ s ∈ [seriesW1, seriesW2], indexIsUnique s := by
    intro s hs
    rcases List.mem_cons.mp hs with rfl | hs2
    · simp [indexIsUnique, seriesIndex, seriesW1]
    · rcases List.mem_singleton.mp hs2 with rfl
      simp [indexIsUnique, seriesIndex, seriesW2]
  have hpair : List.Pairwise
      (fun s t => List.Disjoint (seriesIndex s) (seriesIndex t))
      [seriesW1, seriesW2] := by
    constructor
    · intro t ht
      rcases List.mem_singleton.mp ht with rfl
      intro a ha hb
      simp [seriesIndex, seriesW1] at ha
      simp [seriesIndex, seriesW2] at hb
      rw [ha] at hb
      exact absurd hb (by decide)
    · exact List.pairwise_singleton _ _
  ⟨huniq,
    notebook_concat_assertions.2.1 [seriesW1, seriesW2] huniq hpair,
    notebook_concat_assertions.2.2 [] [] [] seriesW1 seriesW1
      ((("m1"), ("s1"), ("World"), ("crit1"))) (by decide) (by decide)⟩
